import Mathlib

/-!
Shallow embedding of the IPC supervisor/worker simulation
(`parent.c`, `child.c`, `common.c`).

The C program is a sequential supervisor (`parentProcess`) driving a pool of
forked workers (`child`) through one shared-memory mailbox and counting
semaphores.  The protocol is a strict rendezvous: every `sem_post` by the
supervisor to a worker semaphore is immediately followed by a blocking
`sem_wait` on the shared acknowledgment semaphore, and the woken worker
posts that acknowledgment exactly once.  Because of this discipline the
combined system is modelled synchronously: each send/acknowledge pair is one
atomic step on a single simulation state.  A `sem_post` to a slot whose
worker process is no longer alive can never be acknowledged, so the
supervisor blocks forever; this is modelled by an absorbing `stuck` flag
(once set, every later operation is the identity).

`rand()` is modelled by an explicit stream of natural numbers consumed in
call order.  File I/O (config parsing, log writing, console printing) is
modelled by the event trace; the corpus file is an already-read list of
lines, exactly as `lineCount` / `randomLineSelection` observe it.
-/

/-- Observable events of the combined system, in program order.  Parent-side
events mirror the supervisor writes/posts/waits and its console prints;
child-side events mirror each worker writing to its own log. -/
inductive Event where
  | tickStart (t : Int)
  | spawned (t : Int) (label : String) (pid : Nat) (slot : Nat)
  | writeMailbox (payload : String) (t : Int)
  | deliver (slot : Nat) (payload : String) (t : Int)
  | post (slot : Nat)
  | ackWait
  | childGotLine (pid : Nat) (t : Int) (payload : String)
  | childTermLog (pid : Nat) (t : Int)
  | childSummary (pid : Nat) (lines : Nat) (endTick : Int) (activation : Int) (span : Int)
  | childExit (slot : Nat)
  | warnTerminate (t : Int) (label : String)
  deriving DecidableEq

/-- One parsed line of the configuration file (`ConfigEntry` in parent.c):
a timestamp, a process label, and a command character
(S = spawn, T = terminate, E = exit/quit). -/
structure ConfigEntry where
  timestamp : Int
  processLabel : String
  command : Char
  deriving DecidableEq

/-- Private state of one live worker process (`child` in child.c):
its pid, the activation tick passed at fork time, and its `lineCntr`. -/
structure ChildCtx where
  pid : Nat
  activationTime : Int
  lineCntr : Nat
  deriving DecidableEq

/-- Combined simulation state: the supervisor-owned arrays of
`parentProcess` (all of length `M`), the shared-memory mailbox fields, the
set of live worker processes, the pending random stream, the event trace,
and the absorbing deadlock flag.  `divByZero` instruments the single call
site of `randomLineSelection` and records whether it was ever invoked with
a zero line count. -/
structure SimState where
  children : List Nat
  childLabels : List String
  activationTime : List Int
  terminationTime : List Int
  activeChildren : Int
  childStates : List (Option ChildCtx)
  sharedSpace : String
  endsInTimestamp : Int
  activeChildIndx : Int
  nextPid : Nat
  rands : List Nat
  events : List Event
  stuck : Bool
  divByZero : Bool

/-- Result of a whole run of `parentProcess`: either the fatal exit taken
when no EXIT command exists (before the text file, the shared memory, the
semaphores or any child is created), or normal completion with a final
state. -/
inductive RunResult where
  | fatalNoQuit
  | completed (s : SimState)

/-- The scan of parent.c lines 164-169: the timestamp of the first config
entry whose command is E, or -1 when none exists. -/
def findQuitTimestamp : List ConfigEntry → Int
  | [] => -1
  | c :: cs => if c.command = 'E' then c.timestamp else findQuitTimestamp cs

/-- First index `i < M` satisfying a predicate, or -1: the common shape of
the search loops in common.c. -/
def firstIndexWhere (pred : Nat → Bool) (M : Nat) : Int :=
  match (List.range M).find? pred with
  | some i => Int.ofNat i
  | none => -1

/-- freeSlotFinder (common.c): first index with `children[i] == 0`, else -1. -/
def freeSlotFinder (children : List Nat) (M : Nat) : Int :=
  firstIndexWhere (fun i => children.getD i 0 == 0) M

/-- childLabelFinder (common.c): first index whose label matches, else -1. -/
def childLabelFinder (childLabels : List String) (label : String) (M : Nat) : Int :=
  firstIndexWhere (fun i => childLabels.getD i "" == label) M

/-- lineCount (common.c): number of lines of the already-read corpus file. -/
def lineCount (fileLines : List String) : Nat := fileLines.length

/-- The fgets loop of randomLineSelection: after rewinding, `k+1` calls of
fgets leave line `k` in the buffer (or the last line when the file is
shorter, since a failing fgets leaves the buffer unchanged). -/
def fgetsScan : List String → Nat → String → String
  | [], _, buf => buf
  | l :: _, 0, _ => l
  | l :: ls, k + 1, _ => fgetsScan ls k l

/-- randomLineSelection (common.c): draw `rand() % totalLines` and fetch
that line by re-scanning the corpus from the start. -/
def randomLineSelection (corpus : List String) (totalLines : Nat) (r : Nat) : String :=
  fgetsScan corpus (r % totalLines) ""

/-- The activeIndexes array built by randomActiveChildrenSelection
(common.c): the slot indices below `M` whose pid entry is nonzero. -/
def activeIndexesOf (children : List Nat) (M : Nat) : List Nat :=
  (List.range M).filter (fun i => decide (0 < children.getD i 0))

/-- randomActiveChildrenSelection (common.c): collect the indices with
`children[i] > 0` and pick position `rand() % count`, or -1 when none. -/
def randomActiveChildrenSelection (children : List Nat) (M : Nat) (r : Nat) : Int :=
  if (activeIndexesOf children M).length = 0 then -1
  else Int.ofNat ((activeIndexesOf children M).getD (r % (activeIndexesOf children M).length) 0)

/-- The state right after the memsets of parentProcess and sharedMemSetup:
all slots free, labels zeroed, times -1, mailbox cleared, no live worker. -/
def initState (M : Nat) (rands : List Nat) : SimState :=
  { children := List.replicate M 0
    childLabels := List.replicate M ""
    activationTime := List.replicate M (-1)
    terminationTime := List.replicate M (-1)
    activeChildren := 0
    childStates := List.replicate M none
    sharedSpace := ""
    endsInTimestamp := -1
    activeChildIndx := -1
    nextPid := 0
    rands := rands
    events := []
    stuck := false
    divByZero := false }

/-- One config entry applied at the current tick (parent.c lines 195-230).
Spawn: guarded by `activeChildren < M`, takes the lowest free slot, forks a
fresh worker.  Terminate: looks the label up; on a hit it writes the
sentinel and tick into the mailbox, posts the slot semaphore and waits for
the acknowledgment — which arrives only if a live worker occupies the slot
(otherwise the supervisor blocks forever: `stuck`); on a miss it only warns.
The worker side of the rendezvous (child.c lines 69-87) is folded in:
the woken worker logs the sentinel, acknowledges, writes its summary line
with `endTick = mailbox.endsInTimestamp` and span `endTick - activationTime`,
and exits; the supervisor then reaps it and frees the slot. -/
def applyCommand (M : Nat) (s : SimState) (c : ConfigEntry) (t : Int) : SimState :=
  if s.stuck then s
  else if c.command = 'S' ∧ s.activeChildren < (M : Int) then
    let freeSlot := freeSlotFinder s.children M
    if freeSlot ≠ -1 then
      let i := freeSlot.toNat
      let pid := s.nextPid + 1
      { s with children := s.children.set i pid
               childLabels := s.childLabels.set i c.processLabel
               activationTime := s.activationTime.set i t
               activeChildren := s.activeChildren + 1
               nextPid := pid
               childStates := s.childStates.set i (some { pid := pid, activationTime := t, lineCntr := 0 })
               events := s.events ++ [Event.spawned t c.processLabel pid i] }
    else s
  else if c.command = 'T' then
    let childIndx := childLabelFinder s.childLabels c.processLabel M
    if childIndx ≠ -1 then
      let i := childIndx.toNat
      let s1 := { s with terminationTime := s.terminationTime.set i t
                         endsInTimestamp := t
                         sharedSpace := "TERMINATE"
                         events := s.events ++ [Event.writeMailbox "TERMINATE" t, Event.post i] }
      match s1.childStates.getD i none with
      | some cs =>
        { s1 with childStates := s1.childStates.set i none
                  children := s1.children.set i 0
                  activeChildren := s1.activeChildren - 1
                  events := s1.events ++ [Event.childTermLog cs.pid t, Event.ackWait,
                    Event.childSummary cs.pid cs.lineCntr s1.endsInTimestamp cs.activationTime
                      (s1.endsInTimestamp - cs.activationTime),
                    Event.childExit i] }
      | none => { s1 with stuck := true }
    else
      { s with events := s.events ++ [Event.warnTerminate t c.processLabel] }
  else s

/-- The inner command loop of one tick (parent.c lines 191-232): every
config entry whose timestamp equals the current tick, in file order. -/
def applyCommandsAtTick (M : Nat) (commands : List ConfigEntry) (s : SimState) (t : Int) : SimState :=
  commands.foldl (fun acc c => if c.timestamp = t then applyCommand M acc c t else acc) s

/-- Append one event to the trace unless the run is already blocked. -/
def pushEvent (s : SimState) (e : Event) : SimState :=
  if s.stuck then s else { s with events := s.events ++ [e] }

/-- The delivery phase of one tick (parent.c lines 234-246): when a worker
is active, one random active slot is chosen; when additionally the corpus
is nonempty, one random line is written into the mailbox, the slot is
posted and the acknowledgment awaited.  The woken worker (child.c) either
logs the line and acknowledges, or — when the line happens to equal the
sentinel — terminates exactly as on an explicit Terminate (though the
supervisor does not reap it here).  Posting a slot with no live worker
blocks the supervisor forever. -/
def deliverPhase (M : Nat) (corpus : List String) (numLines : Nat) (s : SimState) (t : Int) : SimState :=
  if s.stuck then s
  else if 0 < s.activeChildren then
    let r1 := s.rands.headD 0
    let s1 := { s with rands := s.rands.tail }
    let randChildIndx := randomActiveChildrenSelection s1.children M r1
    if randChildIndx ≠ -1 ∧ 0 < numLines then
      let r2 := s1.rands.headD 0
      let s2 := { s1 with rands := s1.rands.tail
                          divByZero := s1.divByZero || (numLines == 0) }
      let line := randomLineSelection corpus numLines r2
      let i := randChildIndx.toNat
      let s3 := { s2 with sharedSpace := line
                          endsInTimestamp := t
                          activeChildIndx := randChildIndx
                          events := s2.events ++ [Event.writeMailbox line t, Event.deliver i line t, Event.post i] }
      match s3.childStates.getD i none with
      | some cs =>
        if line == "TERMINATE" then
          { s3 with childStates := s3.childStates.set i none
                    events := s3.events ++ [Event.childTermLog cs.pid t, Event.ackWait,
                      Event.childSummary cs.pid cs.lineCntr s3.endsInTimestamp cs.activationTime
                        (s3.endsInTimestamp - cs.activationTime)] }
        else
          { s3 with childStates := s3.childStates.set i (some { cs with lineCntr := cs.lineCntr + 1 })
                    events := s3.events ++ [Event.childGotLine cs.pid t line, Event.ackWait] }
      | none => { s3 with stuck := true }
    else s1
  else s

/-- One full tick of the supervisor loop: commands at this timestamp in
file order, then the delivery phase. -/
def processTick (M : Nat) (commands : List ConfigEntry) (corpus : List String) (numLines : Nat)
    (s : SimState) (t : Int) : SimState :=
  deliverPhase M corpus numLines (applyCommandsAtTick M commands (pushEvent s (Event.tickStart t)) t) t

/-- One iteration of the final drain (parent.c lines 249-260): a still
occupied slot receives the sentinel stamped with the quit tick; the worker
summarises and exits.  The pid entry is not cleared here (the C code does
not reset `children[i]` in this loop). -/
def drainStep (q : Int) (s : SimState) (i : Nat) : SimState :=
  if s.stuck then s
  else if 0 < s.children.getD i 0 then
    let s1 := { s with terminationTime := s.terminationTime.set i q
                       endsInTimestamp := q
                       sharedSpace := "TERMINATE"
                       events := s.events ++ [Event.writeMailbox "TERMINATE" q, Event.post i] }
    match s1.childStates.getD i none with
    | some cs =>
      { s1 with childStates := s1.childStates.set i none
                events := s1.events ++ [Event.childTermLog cs.pid q, Event.ackWait,
                  Event.childSummary cs.pid cs.lineCntr s1.endsInTimestamp cs.activationTime
                    (s1.endsInTimestamp - cs.activationTime),
                  Event.childExit i] }
    | none => { s1 with stuck := true }
  else s

/-- The final drain over all slots in increasing index order. -/
def drain (M : Nat) (q : Int) (s : SimState) : SimState :=
  (List.range M).foldl (drainStep q) s

/-- The tick values visited by `for (currTime = 0; currTime <= q; ++currTime)`. -/
def ticksUpTo (q : Int) : List Int :=
  if q < 0 then [] else (List.range (q.toNat + 1)).map Int.ofNat

/-- parentProcess (parent.c lines 148-265) on already-parsed inputs: find
the quit timestamp (its absence is fatal, before the corpus file, the
mailbox, the semaphores or any worker exist), then run ticks 0..quit, then
drain the remaining workers. -/
def parentProcess (commands : List ConfigEntry) (corpus : List String) (M : Nat)
    (rands : List Nat) : RunResult :=
  let quitTimestamp := findQuitTimestamp commands
  if quitTimestamp = -1 then RunResult.fatalNoQuit
  else
    let numLines := lineCount corpus
    let s0 := initState M rands
    let s1 := (ticksUpTo quitTimestamp).foldl (processTick M commands corpus numLines) s0
    RunResult.completed (drain M quitTimestamp s1)

/-- Final state of a run (the untouched initial state when the run was
fatal before the loop). -/
def runState (commands : List ConfigEntry) (corpus : List String) (M : Nat)
    (rands : List Nat) : SimState :=
  match parentProcess commands corpus M rands with
  | RunResult.completed s => s
  | RunResult.fatalNoQuit => initState M rands

/-- Event trace of a run (empty when the run was fatal before the loop). -/
def runEvents (commands : List ConfigEntry) (corpus : List String) (M : Nat)
    (rands : List Nat) : List Event :=
  match parentProcess commands corpus M rands with
  | RunResult.completed s => s.events
  | RunResult.fatalNoQuit => []

/-- The ticks whose loop body started, in order, read off the trace. -/
def ticksExecuted (events : List Event) : List Int :=
  events.filterMap (fun e => match e with | Event.tickStart t => some t | _ => none)

/-- Recogniser for delivery events. -/
def isDeliverEv : Event → Bool
  | Event.deliver _ _ _ => true
  | _ => false

/-- Recogniser for warning events. -/
def isWarnEv : Event → Bool
  | Event.warnTerminate _ _ => true
  | _ => false

/-- The delivery events of a trace. -/
def deliversIn (events : List Event) : List Event := events.filter isDeliverEv

/-- Number of active (nonzero pid) entries of the slot array. -/
def countActive : List Nat → Nat
  | [] => 0
  | p :: rest => (if 0 < p then 1 else 0) + countActive rest

/-- Protocol automaton for the in-flight discipline: `true` means a post
has been issued whose acknowledgment has not yet been awaited.  A mailbox
write or a second post while in flight is a violation (`none`); all
child-side and bookkeeping events leave the state unchanged. -/
def flightStep (b : Bool) : Event → Option Bool
  | Event.writeMailbox _ _ => if b then none else some false
  | Event.post _ => if b then none else some true
  | Event.ackWait => some false
  | _ => some b

/-- Run the in-flight automaton over a trace; `none` means some send
overlapped a pending one. -/
def flightCheck : Bool → List Event → Option Bool
  | b, [] => some b
  | b, e :: es =>
    match flightStep b e with
    | none => none
    | some b2 => flightCheck b2 es

/-- A state respects the send/acknowledge discipline: its trace has no
overlapping send, and it is in flight exactly when the run is blocked
forever on the acknowledgment semaphore. -/
def flightInv (s : SimState) : Prop :=
  (s.stuck = false ∧ flightCheck false s.events = some false)
  ∨ (s.stuck = true ∧ flightCheck false s.events = some true)

/-- The slot-accounting invariant of the supervisor loop: the slot array
has size `M`, `activeChildren` equals the number of occupied slots, that
number is at most `M`, and every slot holding a live worker has a nonzero
pid entry. -/
def invariantC6 (M : Nat) (s : SimState) : Prop :=
  s.children.length = M
  ∧ s.activeChildren = (countActive s.children : Int)
  ∧ countActive s.children ≤ M
  ∧ ∀ i ∈ List.range M, ((s.childStates.getD i none).isSome = true → 0 < s.children.getD i 0)

instance instDecidableInvariantC6 (M : Nat) (s : SimState) : Decidable (invariantC6 M s) := by
  unfold invariantC6
  exact inferInstance

/-- Config used to exhibit the stale-label deadlock against claim C2:
C1 is spawned, terminated, then terminated again; EXIT is at tick 5. -/
def c2cmds : List ConfigEntry :=
  [⟨0, "C1", 'S'⟩, ⟨1, "C1", 'T'⟩, ⟨2, "C1", 'T'⟩, ⟨5, "EXIT", 'E'⟩]

/-- Config used to exhibit the stale-label bug against claim C3. -/
def c3cmds : List ConfigEntry :=
  [⟨0, "C1", 'S'⟩, ⟨1, "C1", 'T'⟩, ⟨2, "C1", 'T'⟩, ⟨3, "EXIT", 'E'⟩]

/-- A state with one active worker in slot 0 (obtained by actually
spawning it), used to instantiate the hypotheses of several theorems. -/
def stOneActive : SimState :=
  applyCommand 1 (initState 1 []) ⟨0, "C1", 'S'⟩ 0

lemma getD_of_le_length {α : Type} (l : List α) (i : Nat) (d : α) (h : l.length ≤ i) :
    l.getD i d = d := by
  induction l generalizing i with
  | nil => simp [List.getD]
  | cons x xs ih =>
    cases i with
    | zero => simp at h
    | succ j => simpa using ih j (by simpa using h)

lemma getD_set_self {α : Type} (l : List α) (i : Nat) (a d : α) (h : i < l.length) :
    (l.set i a).getD i d = a := by
  induction l generalizing i with
  | nil => simp at h
  | cons x xs ih =>
    cases i with
    | zero => simp
    | succ j => simpa using ih j (by simpa using h)

lemma getD_set_ne {α : Type} (l : List α) (i j : Nat) (a d : α) (h : i ≠ j) :
    (l.set i a).getD j d = l.getD j d := by
  induction l generalizing i j with
  | nil => simp [List.set]
  | cons x xs ih =>
    cases i with
    | zero =>
      cases j with
      | zero => exact absurd rfl h
      | succ j2 => simp
    | succ i2 =>
      cases j with
      | zero => simp
      | succ j2 => simpa using ih i2 j2 (fun hc => h (by rw [hc]))

lemma getD_mem_of_lt {α : Type} (l : List α) (n : Nat) (d : α) (h : n < l.length) :
    l.getD n d ∈ l := by
  induction l generalizing n with
  | nil => simp at h
  | cons x xs ih =>
    cases n with
    | zero => simp
    | succ m => exact List.mem_cons_of_mem x (by simpa using ih m (by simpa using h))

lemma getD_replicate_self {α : Type} (n i : Nat) (a : α) :
    (List.replicate n a).getD i a = a := by
  induction n generalizing i with
  | zero => simp [List.getD]
  | succ m ih =>
    cases i with
    | zero => simp [List.replicate]
    | succ j =>
      rw [List.replicate, List.getD_cons_succ]
      exact ih j

lemma getD_isSome_lt {α : Type} (l : List (Option α)) (i : Nat)
    (h : (l.getD i none).isSome = true) : i < l.length := by
  by_contra hge
  rw [getD_of_le_length l i none (by omega)] at h
  simp at h

lemma countActive_le_length (l : List Nat) : countActive l ≤ l.length := by
  induction l with
  | nil => simp [countActive]
  | cons p rest ih =>
    simp only [countActive, List.length_cons]
    split <;> omega

lemma countActive_set_pos (l : List Nat) (i p : Nat) (h : i < l.length)
    (hz : l.getD i 0 = 0) (hp : 0 < p) :
    countActive (l.set i p) = countActive l + 1 := by
  induction l generalizing i with
  | nil => simp at h
  | cons x xs ih =>
    cases i with
    | zero =>
      simp only [List.getD_cons_zero] at hz
      simp [countActive, hz, hp]
      omega
    | succ j =>
      have := ih j (by simpa using h) (by simpa using hz)
      simp only [List.set, countActive]
      omega

lemma countActive_set_zero (l : List Nat) (i : Nat) (h : i < l.length)
    (hpos : 0 < l.getD i 0) :
    countActive (l.set i 0) + 1 = countActive l := by
  induction l generalizing i with
  | nil => simp at h
  | cons x xs ih =>
    cases i with
    | zero =>
      simp only [List.getD_cons_zero] at hpos
      simp [countActive, hpos]
      omega
    | succ j =>
      have := ih j (by simpa using h) (by simpa using hpos)
      simp only [List.set, countActive]
      omega

lemma countActive_replicate_zero (n : Nat) : countActive (List.replicate n 0) = 0 := by
  induction n with
  | zero => simp [countActive]
  | succ m ih => simpa [List.replicate, countActive] using ih

lemma firstIndexWhere_ofNat (pred : Nat → Bool) (M i : Nat)
    (h : firstIndexWhere pred M = Int.ofNat i) : i < M ∧ pred i = true := by
  unfold firstIndexWhere at h
  cases hf : (List.range M).find? pred with
  | none =>
    rw [hf] at h
    have h2 : Int.negSucc 0 = Int.ofNat i := h
    exact Int.noConfusion h2
  | some j =>
    rw [hf] at h
    have h2 : Int.ofNat j = Int.ofNat i := h
    have hj : j = i := Int.ofNat.inj h2
    subst hj
    exact ⟨List.mem_range.mp (List.mem_of_find?_eq_some hf), List.find?_some hf⟩

lemma firstIndexWhere_cases (pred : Nat → Bool) (M : Nat) :
    firstIndexWhere pred M = -1
    ∨ ∃ i, firstIndexWhere pred M = Int.ofNat i ∧ i < M ∧ pred i = true := by
  unfold firstIndexWhere
  cases hf : (List.range M).find? pred with
  | none => exact Or.inl rfl
  | some j =>
    refine Or.inr ⟨j, rfl, ?_, ?_⟩
    · exact List.mem_range.mp (List.mem_of_find?_eq_some hf)
    · exact List.find?_some hf

lemma randomActive_cases (children : List Nat) (M : Nat) (r : Nat) :
    randomActiveChildrenSelection children M r = -1
    ∨ ∃ k, randomActiveChildrenSelection children M r = Int.ofNat k
        ∧ k < M ∧ 0 < children.getD k 0 := by
  by_cases h : (activeIndexesOf children M).length = 0
  · left
    unfold randomActiveChildrenSelection
    rw [if_pos h]
  · right
    have hlt : r % (activeIndexesOf children M).length < (activeIndexesOf children M).length :=
      Nat.mod_lt _ (Nat.pos_of_ne_zero h)
    have hmem := getD_mem_of_lt (activeIndexesOf children M) (r % (activeIndexesOf children M).length) 0 hlt
    unfold activeIndexesOf at hmem
    have hm2 := List.mem_filter.mp hmem
    refine ⟨(activeIndexesOf children M).getD (r % (activeIndexesOf children M).length) 0,
      ?_, List.mem_range.mp hm2.1, of_decide_eq_true hm2.2⟩
    unfold randomActiveChildrenSelection
    rw [if_neg h]

lemma fgetsScan_mem (corpus : List String) (k : Nat) (buf : String) (h : corpus ≠ []) :
    fgetsScan corpus k buf ∈ corpus := by
  induction corpus generalizing k buf with
  | nil => exact absurd rfl h
  | cons x xs ih =>
    cases k with
    | zero => simp [fgetsScan]
    | succ m =>
      have hstep : fgetsScan (x :: xs) (m + 1) buf = fgetsScan xs m x := rfl
      rw [hstep]
      by_cases hxs : xs = []
      · subst hxs
        simp [fgetsScan]
      · exact List.mem_cons_of_mem x (ih m x hxs)

lemma fgetsScan_get (l : List String) (k : Nat) (buf : String) (h : k < l.length) :
    fgetsScan l k buf = l.get ⟨k, h⟩ := by
  induction l generalizing k buf with
  | nil => simp at h
  | cons x xs ih =>
    cases k with
    | zero => simp [fgetsScan]
    | succ m => simpa [fgetsScan] using ih m x (by simpa using h)

lemma getD_eq_get {α : Type} (l : List α) (n : Nat) (d : α) (h : n < l.length) :
    l.getD n d = l.get ⟨n, h⟩ := by
  induction l generalizing n with
  | nil => simp at h
  | cons x xs ih =>
    cases n with
    | zero => simp
    | succ m => simpa using ih m (by simpa using h)

lemma randomLineSelection_mem (corpus : List String) (totalLines r : Nat) (h : corpus ≠ []) :
    randomLineSelection corpus totalLines r ∈ corpus :=
  fgetsScan_mem corpus _ "" h

lemma findQuit_of_no_E (commands : List ConfigEntry)
    (h : ∀ c ∈ commands, c.command ≠ 'E') : findQuitTimestamp commands = -1 := by
  induction commands with
  | nil => rfl
  | cons c cs ih =>
    rw [findQuitTimestamp, if_neg (h c (by simp))]
    exact ih (fun x hx => h x (List.mem_cons_of_mem c hx))

lemma findQuit_eq_find (commands : List ConfigEntry) :
    findQuitTimestamp commands
      = (Option.map ConfigEntry.timestamp (commands.find? (fun c => c.command == 'E'))).getD (-1) := by
  induction commands with
  | nil => rfl
  | cons c cs ih =>
    by_cases h : c.command = 'E'
    · rw [findQuitTimestamp, if_pos h, List.find?_cons_of_pos _ (by simpa using h)]
      rfl
    · rw [findQuitTimestamp, if_neg h, List.find?_cons_of_neg _ (by simpa using h)]
      exact ih

lemma foldl_preserve {σ α : Type} (P : σ → Prop) (f : σ → α → σ)
    (hf : ∀ s a, P s → P (f s a)) :
    ∀ (l : List α) (s : σ), P s → P (l.foldl f s) := by
  intro l
  induction l with
  | nil => intro s hs; exact hs
  | cons a rest ih => intro s hs; exact ih (f s a) (hf s a hs)

lemma foldl_fix {α : Type} (f : SimState → α → SimState)
    (hfix : ∀ s a, s.stuck = true → f s a = s) :
    ∀ (l : List α) (s : SimState), s.stuck = true → l.foldl f s = s := by
  intro l
  induction l with
  | nil => intro s _; rfl
  | cons a rest ih =>
    intro s hs
    rw [List.foldl_cons, hfix s a hs]
    exact ih s hs

lemma applyCommand_of_stuck (M : Nat) (s : SimState) (c : ConfigEntry) (t : Int)
    (h : s.stuck = true) : applyCommand M s c t = s := by
  simp [applyCommand, h]

lemma deliverPhase_of_stuck (M : Nat) (corpus : List String) (n : Nat) (s : SimState) (t : Int)
    (h : s.stuck = true) : deliverPhase M corpus n s t = s := by
  simp [deliverPhase, h]

lemma pushEvent_of_stuck (s : SimState) (e : Event) (h : s.stuck = true) : pushEvent s e = s := by
  simp [pushEvent, h]

lemma drainStep_of_stuck (q : Int) (s : SimState) (i : Nat) (h : s.stuck = true) :
    drainStep q s i = s := by
  simp [drainStep, h]

lemma applyCommandsAtTick_of_stuck (M : Nat) (commands : List ConfigEntry) (s : SimState) (t : Int)
    (h : s.stuck = true) : applyCommandsAtTick M commands s t = s := by
  apply foldl_fix _ _ commands s h
  intro s2 c hs2
  by_cases hc : c.timestamp = t
  · rw [if_pos hc, applyCommand_of_stuck M s2 c t hs2]
  · rw [if_neg hc]

lemma processTick_of_stuck (M : Nat) (commands : List ConfigEntry) (corpus : List String)
    (n : Nat) (s : SimState) (t : Int) (h : s.stuck = true) :
    processTick M commands corpus n s t = s := by
  unfold processTick
  rw [pushEvent_of_stuck s _ h, applyCommandsAtTick_of_stuck M commands s t h,
    deliverPhase_of_stuck M corpus n s t h]

lemma drain_of_stuck (M : Nat) (q : Int) (s : SimState) (h : s.stuck = true) :
    drain M q s = s :=
  foldl_fix _ (fun s2 i hs2 => drainStep_of_stuck q s2 i hs2) (List.range M) s h

lemma ticksExecuted_append (xs ys : List Event) :
    ticksExecuted (xs ++ ys) = ticksExecuted xs ++ ticksExecuted ys := by
  simp [ticksExecuted, List.filterMap_append]

lemma ticksExecuted_applyCommand (M : Nat) (s : SimState) (c : ConfigEntry) (t : Int) :
    ticksExecuted (applyCommand M s c t).events = ticksExecuted s.events := by
  unfold applyCommand
  split_ifs <;> (try dsimp only) <;> (try split_ifs) <;> (try split) <;>
    simp [ticksExecuted, List.filterMap_append]

lemma ticksExecuted_deliverPhase (M : Nat) (corpus : List String) (n : Nat) (s : SimState) (t : Int) :
    ticksExecuted (deliverPhase M corpus n s t).events = ticksExecuted s.events := by
  unfold deliverPhase
  split_ifs <;> (try dsimp only) <;> (try split_ifs) <;> (try dsimp only) <;> (try split) <;>
    (try split_ifs) <;> simp [ticksExecuted, List.filterMap_append]

lemma ticksExecuted_drainStep (q : Int) (s : SimState) (i : Nat) :
    ticksExecuted (drainStep q s i).events = ticksExecuted s.events := by
  unfold drainStep
  split_ifs <;> (try dsimp only) <;> (try split) <;>
    simp [ticksExecuted, List.filterMap_append]

lemma ticksExecuted_applyCommandsAtTick (M : Nat) (commands : List ConfigEntry) (s : SimState) (t : Int) :
    ticksExecuted (applyCommandsAtTick M commands s t).events = ticksExecuted s.events := by
  induction commands generalizing s with
  | nil => rfl
  | cons c cs ih =>
    show ticksExecuted (applyCommandsAtTick M cs (if c.timestamp = t then applyCommand M s c t else s) t).events
      = ticksExecuted s.events
    by_cases hc : c.timestamp = t
    · rw [if_pos hc, ih, ticksExecuted_applyCommand]
    · rw [if_neg hc, ih]

lemma ticksExecuted_drain (M : Nat) (q : Int) (s : SimState) :
    ticksExecuted (drain M q s).events = ticksExecuted s.events := by
  unfold drain
  induction List.range M generalizing s with
  | nil => rfl
  | cons i rest ih =>
    rw [List.foldl_cons, ih, ticksExecuted_drainStep]

lemma ticksExecuted_processTick (M : Nat) (commands : List ConfigEntry) (corpus : List String)
    (n : Nat) (s : SimState) (t : Int) (h : s.stuck = false) :
    ticksExecuted (processTick M commands corpus n s t).events = ticksExecuted s.events ++ [t] := by
  unfold processTick
  rw [ticksExecuted_deliverPhase, ticksExecuted_applyCommandsAtTick]
  unfold pushEvent
  rw [if_neg (by simp [h])]
  simp [ticksExecuted_append, ticksExecuted]

lemma deliversIn_append (xs ys : List Event) :
    deliversIn (xs ++ ys) = deliversIn xs ++ deliversIn ys := by
  simp [deliversIn, List.filter_append]

lemma deliversIn_applyCommand (M : Nat) (s : SimState) (c : ConfigEntry) (t : Int) :
    deliversIn (applyCommand M s c t).events = deliversIn s.events := by
  unfold applyCommand
  split_ifs <;> (try dsimp only) <;> (try split_ifs) <;> (try split) <;>
    simp [deliversIn, isDeliverEv, List.filter_append]

lemma deliversIn_drainStep (q : Int) (s : SimState) (i : Nat) :
    deliversIn (drainStep q s i).events = deliversIn s.events := by
  unfold drainStep
  split_ifs <;> (try dsimp only) <;> (try split) <;>
    simp [deliversIn, isDeliverEv, List.filter_append]

lemma deliversIn_pushEvent (s : SimState) (t : Int) :
    deliversIn (pushEvent s (Event.tickStart t)).events = deliversIn s.events := by
  unfold pushEvent
  split_ifs <;> simp [deliversIn, isDeliverEv, List.filter_append]

lemma deliversIn_deliverPhase (M : Nat) (corpus : List String) (n : Nat) (s : SimState) (t : Int) :
    deliversIn (deliverPhase M corpus n s t).events = deliversIn s.events
    ∨ (0 < n ∧ ∃ i r, deliversIn (deliverPhase M corpus n s t).events
        = deliversIn s.events ++ [Event.deliver i (randomLineSelection corpus n r) t]) := by
  unfold deliverPhase
  split_ifs with h1 h2
  · exact Or.inl rfl
  · dsimp only
    split_ifs with h3 h4
    · split
      · refine Or.inr ⟨h3.2, (randomActiveChildrenSelection s.children M (s.rands.headD 0)).toNat,
          s.rands.tail.headD 0, ?_⟩
        simp [deliversIn, isDeliverEv, List.filter_append]
      · refine Or.inr ⟨h3.2, (randomActiveChildrenSelection s.children M (s.rands.headD 0)).toNat,
          s.rands.tail.headD 0, ?_⟩
        simp [deliversIn, isDeliverEv, List.filter_append]
    · split
      · refine Or.inr ⟨h3.2, (randomActiveChildrenSelection s.children M (s.rands.headD 0)).toNat,
          s.rands.tail.headD 0, ?_⟩
        simp [deliversIn, isDeliverEv, List.filter_append]
      · refine Or.inr ⟨h3.2, (randomActiveChildrenSelection s.children M (s.rands.headD 0)).toNat,
          s.rands.tail.headD 0, ?_⟩
        simp [deliversIn, isDeliverEv, List.filter_append]
    · exact Or.inl rfl
  · exact Or.inl rfl

lemma divByZero_applyCommand (M : Nat) (s : SimState) (c : ConfigEntry) (t : Int) :
    (applyCommand M s c t).divByZero = s.divByZero := by
  unfold applyCommand
  split_ifs <;> (try dsimp only) <;> (try split_ifs) <;> (try split) <;> rfl

lemma divByZero_drainStep (q : Int) (s : SimState) (i : Nat) :
    (drainStep q s i).divByZero = s.divByZero := by
  unfold drainStep
  split_ifs <;> (try dsimp only) <;> (try split) <;> rfl

lemma divByZero_pushEvent (s : SimState) (e : Event) :
    (pushEvent s e).divByZero = s.divByZero := by
  unfold pushEvent
  split_ifs <;> rfl

lemma divByZero_deliverPhase (M : Nat) (corpus : List String) (n : Nat) (s : SimState) (t : Int) :
    (deliverPhase M corpus n s t).divByZero = s.divByZero := by
  unfold deliverPhase
  split_ifs with h1 h2
  · rfl
  · dsimp only
    split_ifs with h3 h4
    · obtain ⟨h3a, h3b⟩ := h3
      have hn : (n == 0) = false := beq_eq_false_iff_ne.mpr (by omega)
      split <;> simp [hn]
    · obtain ⟨h3a, h3b⟩ := h3
      have hn : (n == 0) = false := beq_eq_false_iff_ne.mpr (by omega)
      split <;> simp [hn]
    · rfl
  · rfl

lemma flightCheck_append (xs ys : List Event) (b : Bool) :
    flightCheck b (xs ++ ys)
      = Option.bind (flightCheck b xs) (fun b2 => flightCheck b2 ys) := by
  induction xs generalizing b with
  | nil => rfl
  | cons e es ih =>
    rw [List.cons_append]
    show (match flightStep b e with
      | none => none
      | some b2 => flightCheck b2 (es ++ ys))
      = Option.bind (match flightStep b e with
          | none => none
          | some b2 => flightCheck b2 es) (fun b2 => flightCheck b2 ys)
    cases flightStep b e with
    | none => rfl
    | some b2 => exact ih b2

lemma flightInv_applyCommand (M : Nat) (s : SimState) (c : ConfigEntry) (t : Int)
    (h : flightInv s) : flightInv (applyCommand M s c t) := by
  rcases h with ⟨hs, hf⟩ | ⟨hs, hf⟩
  case inr => rw [applyCommand_of_stuck M s c t hs]; exact Or.inr ⟨hs, hf⟩
  unfold applyCommand
  rw [if_neg (by simp [hs])]
  split_ifs with h1 h2
  · dsimp only
    split_ifs with hfree
    · refine Or.inl ⟨hs, ?_⟩
      dsimp only
      rw [flightCheck_append, hf]
      simp [flightCheck, flightStep]
    · exact Or.inl ⟨hs, hf⟩
  · dsimp only
    split_ifs with hfound
    · split
      · refine Or.inl ⟨hs, ?_⟩
        dsimp only
        rw [List.append_assoc, flightCheck_append, hf]
        simp [flightCheck, flightStep]
      · refine Or.inr ⟨rfl, ?_⟩
        dsimp only
        rw [flightCheck_append, hf]
        simp [flightCheck, flightStep]
    · refine Or.inl ⟨hs, ?_⟩
      dsimp only
      rw [flightCheck_append, hf]
      simp [flightCheck, flightStep]
  · exact Or.inl ⟨hs, hf⟩

lemma flightInv_deliverPhase (M : Nat) (corpus : List String) (n : Nat) (s : SimState) (t : Int)
    (h : flightInv s) : flightInv (deliverPhase M corpus n s t) := by
  rcases h with ⟨hs, hf⟩ | ⟨hs, hf⟩
  case inr => rw [deliverPhase_of_stuck M corpus n s t hs]; exact Or.inr ⟨hs, hf⟩
  unfold deliverPhase
  rw [if_neg (by simp [hs])]
  split_ifs with hact
  · dsimp only
    split_ifs with hguard hterm
    · split
      · refine Or.inl ⟨hs, ?_⟩
        dsimp only
        rw [List.append_assoc, flightCheck_append, hf]
        simp [flightCheck, flightStep]
      · refine Or.inr ⟨rfl, ?_⟩
        dsimp only
        rw [flightCheck_append, hf]
        simp [flightCheck, flightStep]
    · split
      · refine Or.inl ⟨hs, ?_⟩
        dsimp only
        rw [List.append_assoc, flightCheck_append, hf]
        simp [flightCheck, flightStep]
      · refine Or.inr ⟨rfl, ?_⟩
        dsimp only
        rw [flightCheck_append, hf]
        simp [flightCheck, flightStep]
    · exact Or.inl ⟨hs, hf⟩
  · exact Or.inl ⟨hs, hf⟩

lemma flightInv_drainStep (q : Int) (s : SimState) (i : Nat)
    (h : flightInv s) : flightInv (drainStep q s i) := by
  rcases h with ⟨hs, hf⟩ | ⟨hs, hf⟩
  case inr => rw [drainStep_of_stuck q s i hs]; exact Or.inr ⟨hs, hf⟩
  unfold drainStep
  rw [if_neg (by simp [hs])]
  split_ifs with hocc
  · dsimp only
    split
    · refine Or.inl ⟨hs, ?_⟩
      dsimp only
      rw [List.append_assoc, flightCheck_append, hf]
      simp [flightCheck, flightStep]
    · refine Or.inr ⟨rfl, ?_⟩
      dsimp only
      rw [flightCheck_append, hf]
      simp [flightCheck, flightStep]
  · exact Or.inl ⟨hs, hf⟩

lemma flightInv_pushTick (s : SimState) (t : Int)
    (h : flightInv s) : flightInv (pushEvent s (Event.tickStart t)) := by
  rcases h with ⟨hs, hf⟩ | ⟨hs, hf⟩
  case inr => rw [pushEvent_of_stuck s _ hs]; exact Or.inr ⟨hs, hf⟩
  unfold pushEvent
  rw [if_neg (by simp [hs])]
  refine Or.inl ⟨hs, ?_⟩
  dsimp only
  rw [flightCheck_append, hf]
  simp [flightCheck, flightStep]

lemma flightInv_init (M : Nat) (rands : List Nat) : flightInv (initState M rands) :=
  Or.inl ⟨rfl, rfl⟩

lemma runEvents_eq_runState (commands : List ConfigEntry) (corpus : List String) (M : Nat)
    (rands : List Nat) : runEvents commands corpus M rands = (runState commands corpus M rands).events := by
  unfold runEvents runState
  cases parentProcess commands corpus M rands with
  | fatalNoQuit => rfl
  | completed s => rfl

lemma run_preserve (corpus : List String) (P : Nat → SimState → Prop)
    (hinit : ∀ M rands, P M (initState M rands))
    (hcmd : ∀ M s c t, P M s → P M (applyCommand M s c t))
    (hpush : ∀ M s t, P M s → P M (pushEvent s (Event.tickStart t)))
    (hdel : ∀ M s t, P M s → P M (deliverPhase M corpus (lineCount corpus) s t))
    (hdrain : ∀ M q s i, P M s → P M (drainStep q s i)) :
    ∀ commands M rands, P M (runState commands corpus M rands) := by
  intro commands M rands
  unfold runState parentProcess
  by_cases hq : findQuitTimestamp commands = -1
  · rw [if_pos hq]
    exact hinit M rands
  · rw [if_neg hq]
    show P M (drain M (findQuitTimestamp commands)
      ((ticksUpTo (findQuitTimestamp commands)).foldl
        (processTick M commands corpus (lineCount corpus)) (initState M rands)))
    apply foldl_preserve (P M) (drainStep (findQuitTimestamp commands))
      (fun s2 i hs2 => hdrain M (findQuitTimestamp commands) s2 i hs2)
    apply foldl_preserve (P M) (processTick M commands corpus (lineCount corpus))
    · intro s2 t hs2
      unfold processTick applyCommandsAtTick
      apply hdel M _ t
      apply foldl_preserve (P M)
        (fun acc c => if c.timestamp = t then applyCommand M acc c t else acc)
      · intro s3 c3 hs3
        by_cases hc : c3.timestamp = t
        · rw [if_pos hc]
          exact hcmd M s3 c3 t hs3
        · rw [if_neg hc]
          exact hs3
      · exact hpush M s2 t hs2
    · exact hinit M rands

lemma ticksExecuted_processTick_stuck (M : Nat) (commands : List ConfigEntry)
    (corpus : List String) (n : Nat) (s : SimState) (t : Int) :
    ticksExecuted (processTick M commands corpus n s t).events
      = ticksExecuted s.events ++ (if s.stuck = true then [] else [t]) := by
  by_cases h : s.stuck = true
  · rw [processTick_of_stuck M commands corpus n s t h, if_pos h, List.append_nil]
  · rw [if_neg h, ticksExecuted_processTick M commands corpus n s t (by simpa using h)]

lemma ticks_loop (M : Nat) (commands : List ConfigEntry) (corpus : List String) (n : Nat) :
    ∀ (ts : List Int) (s : SimState),
    ∃ ts1 ts2, ts = ts1 ++ ts2
      ∧ ticksExecuted ((ts.foldl (processTick M commands corpus n) s).events)
          = ticksExecuted s.events ++ ts1
      ∧ ((ts.foldl (processTick M commands corpus n) s).stuck = false → ts2 = []) := by
  intro ts
  induction ts with
  | nil =>
    intro s
    exact ⟨[], [], rfl, by simp, fun _ => rfl⟩
  | cons t rest ih =>
    intro s
    by_cases h : s.stuck = true
    · have hfix : rest.foldl (processTick M commands corpus n) (processTick M commands corpus n s t) = s := by
        rw [processTick_of_stuck M commands corpus n s t h]
        exact foldl_fix _ (fun s2 t2 hs2 => processTick_of_stuck M commands corpus n s2 t2 hs2) rest s h
      refine ⟨[], t :: rest, rfl, ?_, ?_⟩
      · rw [List.foldl_cons, hfix]
        simp
      · intro hfalse
        rw [List.foldl_cons, hfix] at hfalse
        rw [h] at hfalse
        exact absurd hfalse (by simp)
    · obtain ⟨ts1, ts2, heq, hticks, himp⟩ := ih (processTick M commands corpus n s t)
      refine ⟨t :: ts1, ts2, by rw [heq]; rfl, ?_, himp⟩
      rw [List.foldl_cons, hticks,
        ticksExecuted_processTick M commands corpus n s t (by simpa using h)]
      simp

lemma ofNat_ne_negOne (i : Nat) : Int.ofNat i ≠ -1 :=
  fun h => Int.noConfusion (h : Int.ofNat i = Int.negSucc 0)

lemma toNat_ofNat_eq (n : Nat) : (Int.ofNat n).toNat = n := rfl

lemma inv6_init (M : Nat) (rands : List Nat) : invariantC6 M (initState M rands) := by
  refine ⟨by simp [initState], by simp [initState, countActive_replicate_zero],
    by simp [initState, countActive_replicate_zero], ?_⟩
  intro i hi hsome
  rw [show (initState M rands).childStates = List.replicate M none from rfl,
    getD_replicate_self] at hsome
  simp at hsome

lemma inv6_pushEvent (M : Nat) (s : SimState) (e : Event) (h : invariantC6 M s) :
    invariantC6 M (pushEvent s e) := by
  obtain ⟨hlen, hcnt, hle, halign⟩ := h
  unfold pushEvent
  split_ifs with hstuck
  · exact ⟨hlen, hcnt, hle, halign⟩
  · exact ⟨hlen, hcnt, hle, halign⟩

lemma inv6_applyCommand (M : Nat) (s : SimState) (c : ConfigEntry) (t : Int)
    (h : invariantC6 M s) : invariantC6 M (applyCommand M s c t) := by
  obtain ⟨hlen, hcnt, hle, halign⟩ := h
  by_cases hstuck : s.stuck = true
  · rw [applyCommand_of_stuck M s c t hstuck]
    exact ⟨hlen, hcnt, hle, halign⟩
  unfold applyCommand
  rw [if_neg hstuck]
  split_ifs with h1 h2
  · dsimp only
    split_ifs with hfree
    · rcases firstIndexWhere_cases (fun i => s.children.getD i 0 == 0) M with hf | ⟨i0, hf, hiM, hpred⟩
      · exact absurd (hf : freeSlotFinder s.children M = -1) hfree
      · have hf2 : freeSlotFinder s.children M = Int.ofNat i0 := hf
        rw [hf2]
        simp only [toNat_ofNat_eq]
        have hz : s.children.getD i0 0 = 0 := by simpa using hpred
        have hlt : i0 < s.children.length := by rw [hlen]; exact hiM
        refine ⟨by simp [hlen], ?_, ?_, ?_⟩
        · show s.activeChildren + 1 = (countActive (s.children.set i0 (s.nextPid + 1)) : Int)
          rw [countActive_set_pos s.children i0 (s.nextPid + 1) hlt hz (by omega), hcnt]
          push_cast
          ring
        · exact le_trans (countActive_le_length _) (by simp [hlen])
        · intro j hj hsome
          dsimp only at hsome ⊢
          by_cases hji : j = i0
          · rw [hji]
            rw [getD_set_self s.children i0 (s.nextPid + 1) 0 hlt]
            omega
          · rw [getD_set_ne s.children i0 j (s.nextPid + 1) 0 (Ne.symm hji)]
            apply halign j hj
            rw [getD_set_ne s.childStates i0 j
              (some { pid := s.nextPid + 1, activationTime := t, lineCntr := 0 }) none
              (Ne.symm hji)] at hsome
            exact hsome
    · exact ⟨hlen, hcnt, hle, halign⟩
  · dsimp only
    split_ifs with hfound
    · rcases firstIndexWhere_cases (fun i => s.childLabels.getD i "" == c.processLabel) M
        with hf | ⟨i0, hf, hiM, hpred⟩
      · exact absurd (hf : childLabelFinder s.childLabels c.processLabel M = -1) hfound
      · have hf2 : childLabelFinder s.childLabels c.processLabel M = Int.ofNat i0 := hf
        rw [hf2]
        simp only [toNat_ofNat_eq]
        split
        · rename_i cs heq
          have hpos : 0 < s.children.getD i0 0 :=
            halign i0 (List.mem_range.mpr hiM) (by rw [heq]; rfl)
          have hlt : i0 < s.children.length := by rw [hlen]; exact hiM
          have hdec := countActive_set_zero s.children i0 hlt hpos
          refine ⟨by simp [hlen], ?_, ?_, ?_⟩
          · show s.activeChildren - 1 = (countActive (s.children.set i0 0) : Int)
            rw [hcnt]
            omega
          · exact le_trans (countActive_le_length _) (by simp [hlen])
          · intro j hj hsome
            dsimp only at hsome ⊢
            by_cases hji : j = i0
            · rw [hji] at hsome
              have hlt2 : i0 < s.childStates.length :=
                getD_isSome_lt s.childStates i0 (by rw [heq]; rfl)
              rw [getD_set_self s.childStates i0 none none hlt2] at hsome
              simp at hsome
            · rw [getD_set_ne s.childStates i0 j none none (Ne.symm hji)] at hsome
              rw [getD_set_ne s.children i0 j 0 0 (Ne.symm hji)]
              exact halign j hj hsome
        · exact ⟨hlen, hcnt, hle, halign⟩
    · exact ⟨hlen, hcnt, hle, halign⟩
  · exact ⟨hlen, hcnt, hle, halign⟩

lemma inv6_deliverPhase (M : Nat) (corpus : List String) (n : Nat) (s : SimState) (t : Int)
    (h : invariantC6 M s) : invariantC6 M (deliverPhase M corpus n s t) := by
  obtain ⟨hlen, hcnt, hle, halign⟩ := h
  by_cases hstuck : s.stuck = true
  · rw [deliverPhase_of_stuck M corpus n s t hstuck]
    exact ⟨hlen, hcnt, hle, halign⟩
  unfold deliverPhase
  rw [if_neg hstuck]
  split_ifs with hact
  · dsimp only
    split_ifs with hguard hterm
    · rcases randomActive_cases s.children M (s.rands.headD 0) with hra | ⟨k, hra, hkM, hkpos⟩
      · exact absurd hra hguard.1
      · rw [hra]
        simp only [toNat_ofNat_eq]
        split
        · rename_i cs heq
          refine ⟨hlen, hcnt, hle, ?_⟩
          intro j hj hsome
          dsimp only at hsome ⊢
          by_cases hji : j = k
          · rw [hji] at hsome
            have hlt2 : k < s.childStates.length :=
              getD_isSome_lt s.childStates k (by rw [heq]; rfl)
            rw [getD_set_self s.childStates k none none hlt2] at hsome
            simp at hsome
          · rw [getD_set_ne s.childStates k j none none (Ne.symm hji)] at hsome
            exact halign j hj hsome
        · exact ⟨hlen, hcnt, hle, halign⟩
    · rcases randomActive_cases s.children M (s.rands.headD 0) with hra | ⟨k, hra, hkM, hkpos⟩
      · exact absurd hra hguard.1
      · rw [hra]
        simp only [toNat_ofNat_eq]
        split
        · rename_i cs heq
          refine ⟨hlen, hcnt, hle, ?_⟩
          intro j hj hsome
          dsimp only at hsome ⊢
          by_cases hji : j = k
          · rw [hji]
            exact hkpos
          · rw [getD_set_ne s.childStates k j
              (some { pid := cs.pid, activationTime := cs.activationTime, lineCntr := cs.lineCntr + 1 })
              none (Ne.symm hji)] at hsome
            exact halign j hj hsome
        · exact ⟨hlen, hcnt, hle, halign⟩
    · exact ⟨hlen, hcnt, hle, halign⟩
  · exact ⟨hlen, hcnt, hle, halign⟩

lemma inv6_drainStep (M : Nat) (q : Int) (s : SimState) (i : Nat)
    (h : invariantC6 M s) : invariantC6 M (drainStep q s i) := by
  obtain ⟨hlen, hcnt, hle, halign⟩ := h
  by_cases hstuck : s.stuck = true
  · rw [drainStep_of_stuck q s i hstuck]
    exact ⟨hlen, hcnt, hle, halign⟩
  unfold drainStep
  rw [if_neg hstuck]
  split_ifs with hocc
  · dsimp only
    split
    · rename_i cs heq
      refine ⟨hlen, hcnt, hle, ?_⟩
      intro j hj hsome
      dsimp only at hsome ⊢
      by_cases hji : j = i
      · rw [hji] at hsome
        have hlt2 : i < s.childStates.length := getD_isSome_lt s.childStates i (by rw [heq]; rfl)
        rw [getD_set_self s.childStates i none none hlt2] at hsome
        simp at hsome
      · rw [getD_set_ne s.childStates i j none none (Ne.symm hji)] at hsome
        exact halign j hj hsome
    · exact ⟨hlen, hcnt, hle, halign⟩
  · exact ⟨hlen, hcnt, hle, halign⟩

lemma applyCommand_spawn_delta (M : Nat) (s : SimState) (c : ConfigEntry) (t : Int)
    (hstuck : s.stuck = false) (hc : c.command = 'S') (hlt : s.activeChildren < (M : Int))
    (hfree : freeSlotFinder s.children M ≠ -1) (hlen : s.children.length = M) :
    (applyCommand M s c t).activeChildren = s.activeChildren + 1
    ∧ countActive (applyCommand M s c t).children = countActive s.children + 1 := by
  unfold applyCommand
  rw [if_neg (by simp [hstuck]), if_pos ⟨hc, hlt⟩]
  dsimp only
  rw [if_pos hfree]
  rcases firstIndexWhere_cases (fun i => s.children.getD i 0 == 0) M with hf | ⟨i0, hf, hiM, hpred⟩
  · exact absurd (hf : freeSlotFinder s.children M = -1) hfree
  · have hf2 : freeSlotFinder s.children M = Int.ofNat i0 := hf
    rw [hf2, toNat_ofNat_eq]
    refine ⟨rfl, ?_⟩
    exact countActive_set_pos s.children i0 (s.nextPid + 1)
      (by rw [hlen]; exact hiM) (by simpa using hpred) (by omega)

lemma applyCommand_terminate_delta (M : Nat) (s : SimState) (c : ConfigEntry) (t : Int)
    (i0 : Nat) (cs : ChildCtx) (hstuck : s.stuck = false) (hc : c.command = 'T')
    (hfind : childLabelFinder s.childLabels c.processLabel M = Int.ofNat i0)
    (hcs : s.childStates.getD i0 none = some cs)
    (hlen : s.children.length = M) (hpos : 0 < s.children.getD i0 0) :
    (applyCommand M s c t).activeChildren = s.activeChildren - 1
    ∧ countActive (applyCommand M s c t).children + 1 = countActive s.children
    ∧ (applyCommand M s c t).children.getD i0 0 = 0 := by
  have hiM : i0 < M := (firstIndexWhere_ofNat _ M i0 hfind).1
  unfold applyCommand
  rw [if_neg (by simp [hstuck]), if_neg (by simp [hc]), if_pos hc]
  dsimp only
  rw [if_pos (by rw [hfind]; exact ofNat_ne_negOne i0), hfind, toNat_ofNat_eq]
  rw [hcs]
  refine ⟨rfl, ?_, ?_⟩
  · exact countActive_set_zero s.children i0 (by rw [hlen]; exact hiM) hpos
  · exact getD_set_self s.children i0 0 0 (by rw [hlen]; exact hiM)

lemma mem_deliversIn_iff (sl : Nat) (p : String) (tt : Int) (l : List Event) :
    Event.deliver sl p tt ∈ deliversIn l ↔ Event.deliver sl p tt ∈ l := by
  simp [deliversIn, List.mem_filter, isDeliverEv]

/-- C1: between any supervisor send (mailbox write plus post of the target
slot's semaphore) and its matching wait on the shared acknowledgment
semaphore, no second send occurs: in the trace of any run, running the
in-flight automaton never reports an overlapping mailbox write or post —
every post in tick delivery, in Terminate handling, and in the final drain
is followed by the blocking acknowledgment wait before any later mailbox
write or post. -/
theorem C1_at_most_one_in_flight (commands : List ConfigEntry) (corpus : List String)
    (M : Nat) (rands : List Nat) :
    flightCheck false (runEvents commands corpus M rands) ≠ none := by
  have hinv : flightInv (runState commands corpus M rands) :=
    run_preserve corpus (fun _ s => flightInv s)
      (fun M2 r2 => flightInv_init M2 r2)
      (fun M2 s c t h => flightInv_applyCommand M2 s c t h)
      (fun M2 s t h => flightInv_pushTick s t h)
      (fun M2 s t h => flightInv_deliverPhase M2 corpus (lineCount corpus) s t h)
      (fun M2 q s i h => flightInv_drainStep q s i h) commands M rands
  rw [runEvents_eq_runState]
  rcases hinv with ⟨_, hf⟩ | ⟨_, hf⟩ <;> rw [hf] <;> simp

/-- C2 counterexample: the claim as stated fails on the code.  With
commands spawning C1 at tick 0, terminating it at tick 1, terminating the
same (now inactive, but still label-matching) label again at tick 2 and
EXIT at tick 5, the supervisor blocks forever inside tick 2 on the
acknowledgment semaphore of a dead worker, so only ticks 0, 1, 2 start and
ticks 3..5 never execute even though the Quit timestamp is 5. -/
theorem C2_quit_bounds_counterexample :
    findQuitTimestamp c2cmds = 5
    ∧ ticksExecuted (runEvents c2cmds ["alpha\n"] 1 (List.replicate 20 0)) = [0, 1, 2]
    ∧ ticksExecuted (runEvents c2cmds ["alpha\n"] 1 (List.replicate 20 0)) ≠ ticksUpTo 5 := by
  refine ⟨rfl, rfl, ?_⟩
  decide

/-- C2 (amended): Q is the timestamp of the first Quit record; for every
command sequence with Quit at Q ≥ 0 the supervisor starts no tick beyond Q
(the executed ticks are always an initial segment of 0..Q), and whenever
the run reaches normal completion (it is never blocked forever on a dead
worker's semaphore) it executes exactly the ticks 0..Q inclusive. -/
theorem C2_quit_bounds_loop (commands : List ConfigEntry) (corpus : List String) (M : Nat)
    (rands : List Nat) (Q : Int) (hq : findQuitTimestamp commands = Q) (h0 : 0 ≤ Q) :
    findQuitTimestamp commands
      = (Option.map ConfigEntry.timestamp (commands.find? (fun c => c.command == 'E'))).getD (-1)
    ∧ (∃ rest, ticksExecuted (runEvents commands corpus M rands) ++ rest = ticksUpTo Q)
    ∧ ((runState commands corpus M rands).stuck = false →
        ticksExecuted (runEvents commands corpus M rands) = ticksUpTo Q) := by
  have hne : findQuitTimestamp commands ≠ -1 := by rw [hq]; omega
  have hrs : runState commands corpus M rands
      = drain M Q ((ticksUpTo Q).foldl (processTick M commands corpus (lineCount corpus))
          (initState M rands)) := by
    unfold runState parentProcess
    rw [if_neg hne, hq]
  obtain ⟨ts1, ts2, hsplit, hticks, himp⟩ :=
    ticks_loop M commands corpus (lineCount corpus) (ticksUpTo Q) (initState M rands)
  have hdrainTicks : ticksExecuted (runState commands corpus M rands).events
      = ticksExecuted ((ticksUpTo Q).foldl (processTick M commands corpus (lineCount corpus))
          (initState M rands)).events := by
    rw [hrs]
    exact ticksExecuted_drain M Q _
  refine ⟨findQuit_eq_find commands, ⟨ts2, ?_⟩, ?_⟩
  · rw [runEvents_eq_runState, hdrainTicks, hticks]
    show ([] ++ ts1) ++ ts2 = ticksUpTo Q
    rw [List.nil_append, ← hsplit]
  · intro hstuckF
    have hLstuck : ((ticksUpTo Q).foldl (processTick M commands corpus (lineCount corpus))
        (initState M rands)).stuck = false := by
      by_contra hL
      have hLtrue : ((ticksUpTo Q).foldl (processTick M commands corpus (lineCount corpus))
          (initState M rands)).stuck = true := by
        cases hb : ((ticksUpTo Q).foldl (processTick M commands corpus (lineCount corpus))
            (initState M rands)).stuck
        · exact absurd hb hL
        · rfl
      have : runState commands corpus M rands
          = (ticksUpTo Q).foldl (processTick M commands corpus (lineCount corpus))
              (initState M rands) := by
        rw [hrs]
        exact drain_of_stuck M Q _ hLtrue
      rw [this, hLtrue] at hstuckF
      exact Bool.noConfusion hstuckF
    have hts2 : ts2 = [] := himp hLstuck
    rw [runEvents_eq_runState, hdrainTicks, hticks, hsplit, hts2]
    show [] ++ ts1 = ts1 ++ []
    rw [List.nil_append, List.append_nil]

/-- C2 witness: with the single command EXIT at tick 0 the run completes
and executes exactly tick 0. -/
theorem C2_quit_bounds_loop_witness :
    ticksExecuted (runEvents ([⟨0, "EXIT", 'E'⟩] : List ConfigEntry) [] 1 []) = ticksUpTo 0 :=
  (C2_quit_bounds_loop ([⟨0, "EXIT", 'E'⟩] : List ConfigEntry) [] 1 [] 0 (by decide)
    (by decide)).2.2 (by decide)

/-- C3: the code violates the claim.  After C1 is spawned at tick 0 and
terminated at tick 1, its label is never cleared from the label table, so
the second Terminate of the now-inactive label C1 at tick 2 does not take
the warning path: it finds the stale slot, overwrites the supervisor's
termination record and the mailbox (both become 2), posts the dead
worker's semaphore and then blocks forever on the acknowledgment — the
run ends stuck, with no warning ever emitted. -/
theorem C3_inactive_terminate_bug_eval :
    (runState c3cmds ["alpha\n"] 1 (List.replicate 10 0)).stuck = true
    ∧ (runEvents c3cmds ["alpha\n"] 1 (List.replicate 10 0)).filter isWarnEv = []
    ∧ (runState c3cmds ["alpha\n"] 1 (List.replicate 10 0)).terminationTime = [2]
    ∧ (runState c3cmds ["alpha\n"] 1 (List.replicate 10 0)).endsInTimestamp = 2 :=
  ⟨rfl, rfl, rfl, rfl⟩

/-- C4: when the active worker count already equals the capacity M, a
Spawn command is a silent no-op: the entire state — active count, slot
table, mailbox, trace — is returned unchanged and no error is raised. -/
theorem C4_spawn_at_capacity_noop (M : Nat) (s : SimState) (c : ConfigEntry) (t : Int)
    (hc : c.command = 'S') (hfull : s.activeChildren = (M : Int)) :
    applyCommand M s c t = s := by
  by_cases hstuck : s.stuck = true
  · exact applyCommand_of_stuck M s c t hstuck
  · unfold applyCommand
    rw [if_neg hstuck, if_neg (by rw [hc, hfull]; simp), if_neg (by rw [hc]; simp)]

/-- C4 witness: spawning a second worker into a full table of capacity 1
changes nothing. -/
theorem C4_spawn_at_capacity_noop_witness :
    applyCommand 1 stOneActive ⟨1, "C2", 'S'⟩ 1 = stOneActive :=
  C4_spawn_at_capacity_noop 1 stOneActive ⟨1, "C2", 'S'⟩ 1 rfl (by decide)

/-- C5: a Terminate on an active label at tick t makes the woken worker
record endTick equal to the tick stamp the supervisor wrote into the
mailbox (= t) and log activeSpan = endTick - activationTick, which equals
the supervisor-recorded terminationTick minus activationTick; immediately
after, the worker's slot is free. -/
theorem C5_terminate_records_active_span (M : Nat) (s : SimState) (c : ConfigEntry) (t : Int)
    (i0 : Nat) (cs : ChildCtx) (hstuck : s.stuck = false) (hc : c.command = 'T')
    (hfind : childLabelFinder s.childLabels c.processLabel M = Int.ofNat i0)
    (hcs : s.childStates.getD i0 none = some cs)
    (hact : s.activationTime.getD i0 (-1) = cs.activationTime)
    (hlenc : s.children.length = M) (hlent : s.terminationTime.length = M) :
    (applyCommand M s c t).events = s.events
      ++ [Event.writeMailbox "TERMINATE" t, Event.post i0, Event.childTermLog cs.pid t,
          Event.ackWait,
          Event.childSummary cs.pid cs.lineCntr t cs.activationTime (t - cs.activationTime),
          Event.childExit i0]
    ∧ (applyCommand M s c t).endsInTimestamp = t
    ∧ (applyCommand M s c t).terminationTime.getD i0 (-1) = t
    ∧ t - cs.activationTime
        = (applyCommand M s c t).terminationTime.getD i0 (-1)
          - (applyCommand M s c t).activationTime.getD i0 (-1)
    ∧ (applyCommand M s c t).children.getD i0 0 = 0 := by
  have hiM : i0 < M := (firstIndexWhere_ofNat _ M i0 hfind).1
  unfold applyCommand
  rw [if_neg (by simp [hstuck]), if_neg (by simp [hc]), if_pos hc]
  dsimp only
  rw [if_pos (by rw [hfind]; exact ofNat_ne_negOne i0), hfind, toNat_ofNat_eq]
  rw [hcs]
  refine ⟨by simp, rfl, ?_, ?_, ?_⟩
  · exact getD_set_self s.terminationTime i0 t (-1) (by rw [hlent]; exact hiM)
  · dsimp only
    rw [getD_set_self s.terminationTime i0 t (-1) (by rw [hlent]; exact hiM), hact]
  · exact getD_set_self s.children i0 0 0 (by rw [hlenc]; exact hiM)

/-- C5 witness: terminating the single active worker C1 (activated at tick
0) at tick 5 yields a summary with endTick 5 and span 5, and frees its
slot. -/
theorem C5_terminate_records_active_span_witness :
    (applyCommand 1 stOneActive ⟨5, "C1", 'T'⟩ 5).events = stOneActive.events
      ++ [Event.writeMailbox "TERMINATE" 5, Event.post 0, Event.childTermLog 1 5,
          Event.ackWait, Event.childSummary 1 0 5 0 (5 - 0), Event.childExit 0]
    ∧ (applyCommand 1 stOneActive ⟨5, "C1", 'T'⟩ 5).endsInTimestamp = 5
    ∧ (applyCommand 1 stOneActive ⟨5, "C1", 'T'⟩ 5).terminationTime.getD 0 (-1) = 5
    ∧ (5 : Int) - 0
        = (applyCommand 1 stOneActive ⟨5, "C1", 'T'⟩ 5).terminationTime.getD 0 (-1)
          - (applyCommand 1 stOneActive ⟨5, "C1", 'T'⟩ 5).activationTime.getD 0 (-1)
    ∧ (applyCommand 1 stOneActive ⟨5, "C1", 'T'⟩ 5).children.getD 0 0 = 0 :=
  C5_terminate_records_active_span 1 stOneActive ⟨5, "C1", 'T'⟩ 5 0 ⟨1, 0, 0⟩
    (by decide) rfl (by decide) (by decide) (by decide) (by decide) (by decide)

/-- C6: the slot-accounting invariant — the active count equals the number
of occupied slots and is at most M — holds initially, is preserved by
every command application and every delivery (hence holds at every point
of the supervisor loop), and holds of the final state of every run;
moreover every Spawn that occupies a slot increments the count by exactly
one, and every successful Terminate frees the slot and decrements it by
exactly one. -/
theorem C6_active_count_matches_slots :
    (∀ M rands, invariantC6 M (initState M rands))
    ∧ (∀ M s c t, invariantC6 M s → invariantC6 M (applyCommand M s c t))
    ∧ (∀ M corpus n s t, invariantC6 M s → invariantC6 M (deliverPhase M corpus n s t))
    ∧ (∀ commands corpus M rands, invariantC6 M (runState commands corpus M rands))
    ∧ (∀ (M : Nat) (s : SimState) (c : ConfigEntry) (t : Int),
        s.stuck = false → c.command = 'S' → s.activeChildren < (M : Int) →
        freeSlotFinder s.children M ≠ -1 → s.children.length = M →
        (applyCommand M s c t).activeChildren = s.activeChildren + 1
        ∧ countActive (applyCommand M s c t).children = countActive s.children + 1)
    ∧ (∀ (M : Nat) (s : SimState) (c : ConfigEntry) (t : Int) (i0 : Nat) (cs : ChildCtx),
        s.stuck = false → c.command = 'T' →
        childLabelFinder s.childLabels c.processLabel M = Int.ofNat i0 →
        s.childStates.getD i0 none = some cs → invariantC6 M s →
        (applyCommand M s c t).activeChildren = s.activeChildren - 1
        ∧ countActive (applyCommand M s c t).children + 1 = countActive s.children
        ∧ (applyCommand M s c t).children.getD i0 0 = 0) :=
  ⟨inv6_init, inv6_applyCommand, inv6_deliverPhase,
   fun commands corpus M rands => run_preserve corpus (fun M2 s => invariantC6 M2 s)
     inv6_init inv6_applyCommand (fun M2 s t h => inv6_pushEvent M2 s (Event.tickStart t) h)
     (fun M2 s t h => inv6_deliverPhase M2 corpus (lineCount corpus) s t h)
     (fun M2 q s i h => inv6_drainStep M2 q s i h) commands M rands,
   fun M s c t h1 h2 h3 h4 h5 => applyCommand_spawn_delta M s c t h1 h2 h3 h4 h5,
   fun M s c t i0 cs h1 h2 h3 h4 hinv => applyCommand_terminate_delta M s c t i0 cs h1 h2 h3 h4
     hinv.1 (hinv.2.2.2 i0 (List.mem_range.mpr (firstIndexWhere_ofNat _ M i0 h3).1)
       (by rw [h4]; rfl))⟩

/-- C6 witness: the invariant holds after terminating the single active
worker, and a concrete spawn into the empty table of capacity 1 raises the
active count from 0 to 1. -/
theorem C6_active_count_matches_slots_witness :
    invariantC6 1 (applyCommand 1 stOneActive ⟨3, "C1", 'T'⟩ 3)
    ∧ (applyCommand 1 (initState 1 []) ⟨0, "C1", 'S'⟩ 0).activeChildren
        = (initState 1 []).activeChildren + 1 :=
  ⟨C6_active_count_matches_slots.2.1 1 stOneActive ⟨3, "C1", 'T'⟩ 3 (by decide),
   (C6_active_count_matches_slots.2.2.2.2.1 1 (initState 1 []) ⟨0, "C1", 'S'⟩ 0 (by decide) rfl
     (by decide) (by decide) (by decide)).1⟩

/-- C7: every message delivered to a worker carries a payload that is a
line of the corpus, and the random line selection fetches, by re-scanning
from the start, exactly the line at index rand mod lineCount. -/
theorem C7_delivered_payload_from_corpus (commands : List ConfigEntry) (corpus : List String)
    (M : Nat) (rands : List Nat) :
    (∀ slot payload t, Event.deliver slot payload t ∈ runEvents commands corpus M rands →
      payload ∈ corpus)
    ∧ (∀ r, 0 < lineCount corpus →
        randomLineSelection corpus (lineCount corpus) r = corpus.getD (r % lineCount corpus) "") := by
  constructor
  · have hP := run_preserve corpus
      (fun _ s => ∀ slot payload t, Event.deliver slot payload t ∈ s.events → payload ∈ corpus)
      (fun M2 r2 slot payload t h => absurd h (List.not_mem_nil _))
      (fun M2 s c t h slot payload tt hmem => h slot payload tt
        ((mem_deliversIn_iff slot payload tt s.events).mp
          (by rw [← deliversIn_applyCommand M2 s c t]
              exact (mem_deliversIn_iff slot payload tt _).mpr hmem)))
      (fun M2 s t h slot payload tt hmem => h slot payload tt
        ((mem_deliversIn_iff slot payload tt s.events).mp
          (by rw [← deliversIn_pushEvent s t]
              exact (mem_deliversIn_iff slot payload tt _).mpr hmem)))
      (fun M2 s t h slot payload tt hmem => by
        rcases deliversIn_deliverPhase M2 corpus (lineCount corpus) s t with heq | ⟨hn, i, r, heqD⟩
        · exact h slot payload tt ((mem_deliversIn_iff slot payload tt s.events).mp
            (by rw [← heq]; exact (mem_deliversIn_iff slot payload tt _).mpr hmem))
        · have hmem2 := (mem_deliversIn_iff slot payload tt _).mpr hmem
          rw [heqD] at hmem2
          rcases List.mem_append.mp hmem2 with hold | hnew
          · exact h slot payload tt ((mem_deliversIn_iff slot payload tt s.events).mp hold)
          · have hcne : corpus ≠ [] := by
              intro hcnil
              rw [hcnil] at hn
              exact Nat.lt_irrefl 0 hn
            have hpay : payload = randomLineSelection corpus (lineCount corpus) r := by
              rcases List.mem_singleton.mp hnew with heqv
              exact (Event.deliver.injEq _ _ _ _ _ _).mp heqv |>.2.1
            rw [hpay]
            exact randomLineSelection_mem corpus (lineCount corpus) r hcne)
      (fun M2 q s i h slot payload tt hmem => h slot payload tt
        ((mem_deliversIn_iff slot payload tt s.events).mp
          (by rw [← deliversIn_drainStep q s i]
              exact (mem_deliversIn_iff slot payload tt _).mpr hmem)))
      commands M rands
    intro slot payload t hmem
    exact hP slot payload t (by rw [← runEvents_eq_runState]; exact hmem)
  · intro r hpos
    have hlt : r % lineCount corpus < corpus.length := Nat.mod_lt r hpos
    unfold randomLineSelection
    rw [fgetsScan_get corpus (r % lineCount corpus) "" hlt, getD_eq_get corpus _ "" hlt]

/-- C7 witness: a run whose two deliveries both carry the line at index 1
shows the payload is a corpus member, and a concrete draw fetches exactly
the drawn index. -/
theorem C7_delivered_payload_from_corpus_witness :
    ("beta\n" ∈ (["alpha\n", "beta\n"] : List String))
    ∧ randomLineSelection ["alpha\n", "beta\n"] (lineCount ["alpha\n", "beta\n"]) 3
        = (["alpha\n", "beta\n"] : List String).getD (3 % lineCount ["alpha\n", "beta\n"]) "" :=
  ⟨(C7_delivered_payload_from_corpus ([⟨0, "C1", 'S'⟩, ⟨1, "EXIT", 'E'⟩] : List ConfigEntry)
      ["alpha\n", "beta\n"] 2 [0, 1, 0, 1]).1 0 "beta\n" 0 (by decide),
   (C7_delivered_payload_from_corpus [] ["alpha\n", "beta\n"] 0 []).2 3 (by decide)⟩

/-- C8: a command sequence with no Quit record makes the run fatal before
anything happens: the supervisor exits with the diagnostic before opening
the corpus, creating the mailbox or semaphores, spawning any worker or
delivering any message — the run result is the fatal exit and the trace is
empty. -/
theorem C8_missing_quit_fatal (commands : List ConfigEntry) (corpus : List String) (M : Nat)
    (rands : List Nat) (h : ∀ c ∈ commands, c.command ≠ 'E') :
    parentProcess commands corpus M rands = RunResult.fatalNoQuit
    ∧ runEvents commands corpus M rands = [] := by
  have hq := findQuit_of_no_E commands h
  constructor
  · unfold parentProcess
    rw [if_pos hq]
  · unfold runEvents parentProcess
    rw [if_pos hq]

/-- C8 witness: a sequence holding only a Spawn is fatal with an empty
trace. -/
theorem C8_missing_quit_fatal_witness :
    parentProcess ([⟨0, "C1", 'S'⟩] : List ConfigEntry) ["x"] 1 [] = RunResult.fatalNoQuit
    ∧ runEvents ([⟨0, "C1", 'S'⟩] : List ConfigEntry) ["x"] 1 [] = [] :=
  C8_missing_quit_fatal ([⟨0, "C1", 'S'⟩] : List ConfigEntry) ["x"] 1 [] (by decide)

/-- C9: within one tick, the commands whose timestamp equals that tick are
applied exactly in the order they appear in the parsed sequence: the
guarded pass over the whole command list equals the sequential fold over
the filtered subsequence in original order, never reordered or grouped by
kind. -/
theorem C9_commands_applied_in_file_order (M : Nat) (commands : List ConfigEntry)
    (s : SimState) (t : Int) :
    applyCommandsAtTick M commands s t
      = (commands.filter (fun c => decide (c.timestamp = t))).foldl
          (fun acc c => applyCommand M acc c t) s := by
  induction commands generalizing s with
  | nil => rfl
  | cons c cs ih =>
    show applyCommandsAtTick M cs (if c.timestamp = t then applyCommand M s c t else s) t = _
    by_cases hc : c.timestamp = t
    · rw [if_pos hc, List.filter_cons_of_pos (by simpa using hc), List.foldl_cons, ih]
    · rw [if_neg hc, List.filter_cons_of_neg (by simpa using hc), ih]

/-- C10: with an empty corpus no message is ever delivered on any tick even
when workers are active, the modulo inside random line selection is never
evaluated with a zero divisor (the instrumentation flag stays false), and
the delivery phase changes nothing but the consumed random stream — so
spawns, terminates and the final drain proceed exactly as usual. -/
theorem C10_empty_corpus_no_delivery :
    (∀ commands M rands, deliversIn (runEvents commands [] M rands) = []
      ∧ (runState commands [] M rands).divByZero = false)
    ∧ (∀ M s t, ∃ rs, deliverPhase M [] (lineCount []) s t = { s with rands := rs }) := by
  constructor
  · intro commands M rands
    have hP := run_preserve [] (fun _ s => deliversIn s.events = [] ∧ s.divByZero = false)
      (fun M2 r2 => ⟨rfl, rfl⟩)
      (fun M2 s c t h => ⟨by rw [deliversIn_applyCommand]; exact h.1,
        by rw [divByZero_applyCommand]; exact h.2⟩)
      (fun M2 s t h => ⟨by rw [deliversIn_pushEvent]; exact h.1,
        by rw [divByZero_pushEvent]; exact h.2⟩)
      (fun M2 s t h => by
        rcases deliversIn_deliverPhase M2 [] (lineCount []) s t with heq | ⟨hn, _⟩
        · exact ⟨by rw [heq]; exact h.1, by rw [divByZero_deliverPhase]; exact h.2⟩
        · exact absurd hn (by simp [lineCount]))
      (fun M2 q s i h => ⟨by rw [deliversIn_drainStep]; exact h.1,
        by rw [divByZero_drainStep]; exact h.2⟩)
      commands M rands
    exact ⟨by rw [runEvents_eq_runState]; exact hP.1, hP.2⟩
  · intro M s t
    unfold deliverPhase
    by_cases hstuck : s.stuck = true
    · rw [if_pos hstuck]
      exact ⟨s.rands, rfl⟩
    · rw [if_neg hstuck]
      by_cases hact : 0 < s.activeChildren
      · rw [if_pos hact]
        dsimp only
        rw [if_neg (fun hcon => Nat.lt_irrefl 0 hcon.2)]
        exact ⟨s.rands.tail, rfl⟩
      · rw [if_neg hact]
        exact ⟨s.rands, rfl⟩
